import Mathlib

/-!
Shallow embedding of the OSDB-hash core of `src/src/ziggy/lib/utils.go`
(package `lib`): the chunk reader (`readChunks`, `readRemoteChunks`,
`readChunk`, `readRemoteChunk`) and the hash folder inside `OSDBHashFile`.

Modelling conventions:

* Go `int64` values become `Int`; Go `uint64` arithmetic becomes `Nat`
  arithmetic taken `% 2 ^ 64` at each wrapping operation.
* A local file is modelled by its byte content, a `List Nat` whose
  elements are byte values; the filesystem is assumed well behaved, so
  `os.Open` and `file.Stat` succeed (no claim concerns the open or stat
  failure paths) and `fi.Size()` is the content length.
* A remote source is modelled by the headers of its HEAD response plus
  its byte content; the server is reachable and answers range GETs with
  the bytes of the requested range that exist (a well behaved server).
* Go code that returns an `error` is modelled with the `Result` type
  below; a Go runtime panic (index out of range) is the `crash`
  constructor, distinguished from an ordinary error return.
* Resource events: the model records, in source order, each point where
  the Go code acquires or releases an OS resource. `Event.closeFile`
  and `Event.closeHeadBody` exist as events but are emitted nowhere,
  because the Go source contains no `file.Close()` call and never closes
  the body of the HEAD response; only `readRemoteChunk` closes its GET
  response body (the deferred close at line 192).
-/

namespace ZiggyLib

/-- Error kinds of the core, one per `errors.New` / error-returning site
in utils.go.  `sourceTooSmall` is the message at lines 75 and 120,
`rangeUnsupported` the message at line 65, `malformedResponse` the
`strconv.ParseInt` failure at line 69, `eofError` a positioned read or
`io.ReadFull` that ends early, `negOffsetError` the `os.File.ReadAt`
error for a negative offset, and `invalidRead n` the message
of lines 199 and 211. -/
inductive HashError where
  | openError
  | statError
  | sourceTooSmall
  | rangeUnsupported
  | malformedResponse
  | eofError
  | negOffsetError
  | invalidRead : Nat → HashError
  deriving DecidableEq, Repr

/-- Result of a Go function that returns a value or an error; `crash`
marks a runtime panic (for example an index out of range), which is not
an error return. -/
inductive Result (α : Type) where
  | ok : α → Result α
  | err : HashError → Result α
  | crash : String → Result α
  deriving DecidableEq, Repr

/-- Resource acquisition and release points of the Go source. -/
inductive Event where
  | openFile
  | closeFile
  | headRequest
  | closeHeadBody
  | getRequest
  | closeGetBody
  deriving DecidableEq, Repr

/-- Constant `OSDBChunkSize = 65536` of line 40. -/
def OSDBChunkSize : Nat := 65536

/-- Struct `chunkInfo` of lines 42 to 45: a requested byte span. -/
structure chunkInfo where
  offset : Int
  size : Int
  deriving DecidableEq, Repr

/-- Span resolution of lines 87 to 90 and 132 to 135: `start := span.offset;
if start < 0 then start += fileSize`. -/
def resolveStart (offset fileSize : Int) : Int :=
  if offset < 0 then offset + fileSize else offset

/-- Model of `os.File.ReadAt(buf, offset)` with `len = len(buf)` on a file
with the given content: a negative offset is an error; if the range lies
inside the file the read fills the buffer exactly; otherwise the read is
short and reports an end-of-file error together with the partial count,
which the callers treat as a failure. -/
def readAt (file : List Nat) (offset : Int) (len : Nat) : Result (List Nat) :=
  if offset < 0 then .err .negOffsetError
  else if offset.toNat + len ≤ file.length then .ok ((file.drop offset.toNat).take len)
  else .err .eofError

/-- Function `readChunk` of lines 205 to 214: positioned read, then the
check `n != OSDBChunkSize` on the byte count `n`, which on a successful
`ReadAt` equals the requested buffer length. -/
def readChunk (file : List Nat) (offset : Int) (bufLen : Nat) : Result (List Nat) :=
  match readAt file offset bufLen with
  | .ok bytes => if bufLen ≠ OSDBChunkSize then .err (.invalidRead bufLen) else .ok bytes
  | .err e => .err e
  | .crash m => .crash m

/-- Span loop of lines 130 to 141: resolve each offset, read the span
into its slice of the output buffer, stop at the first failure.  The
pre-allocated buffer filled slice by slice is modelled as the
concatenation of the span reads in input order. -/
def fetchSpansLocal (file : List Nat) (fileSize : Int) : List chunkInfo → Result (List Nat)
  | [] => .ok []
  | span :: rest =>
    match readChunk file (resolveStart span.offset fileSize) span.size.toNat with
    | .ok bytes =>
      match fetchSpansLocal file fileSize rest with
      | .ok tail => .ok (bytes ++ tail)
      | .err e => .err e
      | .crash m => .crash m
    | .err e => .err e
    | .crash m => .crash m

/-- Local branch of `readChunks`, lines 106 to 143: open the file (the
handle is never closed: the source has no `file.Close()`), stat it for
its size, reject sizes below `minimumRequiredSize` with the
too-small error of line 120, then run the span loop. -/
def readChunksLocal (file : List Nat) (minimumRequiredSize : Int)
    (chunks : List chunkInfo) : Result (Int × List Nat) × List Event :=
  ((if (file.length : Int) < minimumRequiredSize then .err .sourceTooSmall
    else
      match fetchSpansLocal file (file.length : Int) chunks with
      | .ok buf => .ok ((file.length : Int), buf)
      | .err e => .err e
      | .crash m => .crash m),
   [.openFile])

/-- Remote source: headers of the HEAD response and the byte content the
server serves for range GETs. -/
structure RemoteSource where
  headers : List (String × List String)
  content : List Nat
  deriving DecidableEq, Repr

/-- Go map lookup `header[k]` with its `ok` flag: the value list of the
first matching key, when present. -/
def getHeader (hs : List (String × List String)) (k : String) : Option (List String) :=
  (hs.find? (fun p => p.1 == k)).map (fun p => p.2)

/-- Decimal digit value of a character, when it is one. -/
def digitVal (c : Char) : Option Nat :=
  if 48 ≤ c.toNat ∧ c.toNat ≤ 57 then some (c.toNat - 48) else none

/-- Value of a non-empty all-digit character list, read in base 10. -/
def digitsToNat : List Char → Option Nat
  | [] => none
  | cs =>
    cs.foldl
      (fun acc c =>
        match acc, digitVal c with
        | some a, some d => some (10 * a + d)
        | _, _ => none)
      (some 0)

/-- Model of `strconv.ParseInt(s, 10, 64)` at line 69: optional sign,
at least one decimal digit, and the value must fit in a signed 64-bit
integer; any failure (including range overflow, which Go reports with a
non-nil error) yields `none`. -/
def parseInt64 (s : String) : Option Int :=
  match s.toList with
  | [] => none
  | c :: rest =>
    let signAndDigits : Bool × List Char :=
      if c = '-' then (true, rest)
      else if c = '+' then (false, rest)
      else (false, c :: rest)
    match digitsToNat signAndDigits.2 with
    | none => none
    | some n =>
      let v : Int := if signAndDigits.1 then -(n : Int) else (n : Int)
      if v < -(2 ^ 63) ∨ (2 ^ 63 - 1 : Int) < v then none else some v

/-- Metadata step of `readRemoteChunks`, lines 63 to 72: the
`Accept-Ranges` check, then `Content-Length` parsing.  Indexing `[0]`
into the value slice of a key that is absent from the Go header map
dereferences a nil slice and panics, modelled by `crash`; the
short-circuit `!ok ||` at line 64 means an absent `Accept-Ranges` key is
an error return, not a panic. -/
def remoteMeta (src : RemoteSource) : Result Int :=
  match getHeader src.headers "Accept-Ranges" with
  | none => .err .rangeUnsupported
  | some [] => .crash "index out of range"
  | some (v :: _) =>
    if v = "bytes" then
      match getHeader src.headers "Content-Length" with
      | none => .crash "index out of range"
      | some [] => .crash "index out of range"
      | some (s :: _) =>
        match parseInt64 s with
        | none => .err .malformedResponse
        | some n => .ok n
    else .err .rangeUnsupported

/-- Function `readRemoteChunk` of lines 179 to 202: a range GET for
`len(buf)` bytes starting at `offset`, then `io.ReadFull`, which fails
when fewer bytes arrive than requested; the deferred body close of
line 192 runs on every path after the GET. -/
def readRemoteChunk (src : RemoteSource) (offset : Int) (bufLen : Nat) :
    Result (List Nat) × List Event :=
  let avail := if offset < 0 then [] else (src.content.drop offset.toNat).take bufLen
  ((if avail.length < bufLen then .err .eofError else .ok avail),
   [.getRequest, .closeGetBody])

/-- Span loop of lines 86 to 96, remote: same structure as the local
loop, each span fetched by `readRemoteChunk`. -/
def fetchSpansRemote (src : RemoteSource) (fileSize : Int) :
    List chunkInfo → Result (List Nat) × List Event
  | [] => (.ok [], [])
  | span :: rest =>
    let r := readRemoteChunk src (resolveStart span.offset fileSize) span.size.toNat
    match r.1 with
    | .ok bytes =>
      let rr := fetchSpansRemote src fileSize rest
      ((match rr.1 with
        | .ok tail => .ok (bytes ++ tail)
        | .err e => .err e
        | .crash m => .crash m),
       r.2 ++ rr.2)
    | .err e => (.err e, r.2)
    | .crash m => (.crash m, r.2)

/-- Function `readRemoteChunks` of lines 47 to 98: HEAD request (whose
response body is never closed by the source), metadata validation,
minimum-size check of lines 74 to 77, then the span loop. -/
def readRemoteChunks (src : RemoteSource) (minimumRequiredSize : Int)
    (chunks : List chunkInfo) : Result (Int × List Nat) × List Event :=
  match remoteMeta src with
  | .err e => (.err e, [.headRequest])
  | .crash m => (.crash m, [.headRequest])
  | .ok fileSize =>
    if fileSize < minimumRequiredSize then (.err .sourceTooSmall, [.headRequest])
    else
      let r := fetchSpansRemote src fileSize chunks
      ((match r.1 with
        | .ok buf => .ok (fileSize, buf)
        | .err e => .err e
        | .crash m => .crash m),
       .headRequest :: r.2)

/-- Source of a hash: the Go code classifies the path string by prefix at
line 101 (`http://` or `https://` means remote); the two branches are the
two constructors. -/
inductive Source where
  | localFile : List Nat → Source
  | remote : RemoteSource → Source
  deriving DecidableEq, Repr

/-- Function `readChunks` of lines 100 to 144.  The remote dispatch at
line 102 passes the constant `OSDBChunkSize` as the minimum size,
discarding the `minimumRequiredSize` argument. -/
def readChunks (source : Source) (minimumRequiredSize : Int)
    (chunks : List chunkInfo) : Result (Int × List Nat) × List Event :=
  match source with
  | .remote src => readRemoteChunks src (OSDBChunkSize : Int) chunks
  | .localFile file => readChunksLocal file minimumRequiredSize chunks

/-- Word count `(OSDBChunkSize * 2) / 8 = 16384` of the fixed array
`nums` at line 163. -/
def OSDBWordCount : Nat := (OSDBChunkSize * 2) / 8

/-- Value of a byte list as a little-endian unsigned integer: byte 0 is
least significant, as `binary.LittleEndian` decodes a `uint64`. -/
def wordLE (bytes : List Nat) : Nat :=
  bytes.foldr (fun b acc => b + 256 * acc) 0

/-- Model of `binary.Read(reader, binary.LittleEndian, nums)` decoding
`n` consecutive eight-byte little-endian words from the front of the
buffer (lines 164 to 165). -/
def decodeWordsLE (buf : List Nat) (n : Nat) : List Nat :=
  (List.range n).map (fun i => wordLE ((buf.drop (8 * i)).take 8))

/-- Summation loop of lines 169 to 174: fold the words into `hashUint`
with wrapping `uint64` addition, then add the file size (already
converted to `uint64`). -/
def hashFold (words : List Nat) (sizeWord : Nat) : Nat :=
  (words.foldl (fun acc w => (acc + w) % 2 ^ 64) 0 + sizeWord) % 2 ^ 64

/-- Go conversion `uint64(fileSize)` of an `int64`: reduction modulo
`2 ^ 64` (two-complement reinterpretation). -/
def intToUInt64 (i : Int) : Nat := (i % 2 ^ 64).toNat

/-- Lowercase hexadecimal digit character of a value below 16, as the
`%x` verb of `fmt.Sprintf` renders it. -/
def hexDigit (n : Nat) : Char :=
  if n < 10 then Char.ofNat (48 + n) else Char.ofNat (87 + n)

/-- Hexadecimal digit extraction, least significant first, with a step
budget: one division by 16 per step, stopping at zero. -/
def toHexRevAux : Nat → Nat → List Char
  | 0, _ => []
  | fuel + 1, n => if n = 0 then [] else hexDigit (n % 16) :: toHexRevAux fuel (n / 16)

/-- Hexadecimal digits of a `uint64` value, least significant first,
empty for zero.  A 64-bit value has at most 16 hexadecimal digits, so 16
division steps extract all of them (the argument of the `%016x` verb in
the source is a `uint64`). -/
def toHexRev (n : Nat) : List Char := toHexRevAux 16 n

/-- Model of `fmt.Sprintf` with the verb `%016x` at line 176: lowercase
hexadecimal, zero-padded on the left to a width of 16 (wider values keep
all their digits, as the verb only sets a minimum width). -/
def format016x (n : Nat) : String :=
  let digits := if n = 0 then ['0'] else (toHexRev n).reverse
  String.mk (List.replicate (16 - digits.length) '0' ++ digits)

/-- Hash folder of lines 162 to 176: `binary.Read` into the fixed
16384-word array fails when the buffer holds fewer bytes than the array
needs (the `io` unexpected-end-of-file error returned at line 166);
otherwise sum the words, add the size and format. -/
def hashFolder (buf : List Nat) (fileSize : Int) : Result String :=
  if buf.length < 8 * OSDBWordCount then .err .eofError
  else .ok (format016x (hashFold (decodeWordsLE buf OSDBWordCount) (intToUInt64 fileSize)))

/-- Spans of lines 151 to 154: head and tail 64 KiB of the source. -/
def osdbSpans : List chunkInfo :=
  [⟨0, (OSDBChunkSize : Int)⟩, ⟨-(OSDBChunkSize : Int), (OSDBChunkSize : Int)⟩]

/-- Function `OSDBHashFile` of lines 147 to 177: read the two spans with
minimum size `OSDBChunkSize`, then fold the buffer and the size into the
hash string. -/
def OSDBHashFile (source : Source) : Result String × List Event :=
  let r := readChunks source (OSDBChunkSize : Int) osdbSpans
  ((match r.1 with
    | .ok (fileSize, buf) => hashFolder buf fileSize
    | .err e => .err e
    | .crash m => .crash m),
   r.2)

/-- Character is one of the sixteen lowercase hexadecimal digits. -/
def isLowerHexChar (c : Char) : Bool :=
  c ∈ "0123456789abcdef".toList

/-! Helper lemmas about the embedded definitions. -/

theorem readAt_ok (file : List Nat) (offset : Int) (len : Nat)
    (h1 : 0 ≤ offset) (h2 : offset.toNat + len ≤ file.length) :
    readAt file offset len = .ok ((file.drop offset.toNat).take len) := by
  simp only [readAt]
  rw [if_neg (by omega), if_pos h2]

theorem readAt_ok_inv (file : List Nat) (offset : Int) (len : Nat) (bytes : List Nat)
    (h : readAt file offset len = .ok bytes) :
    0 ≤ offset ∧ offset.toNat + len ≤ file.length ∧
      bytes = (file.drop offset.toNat).take len := by
  simp only [readAt] at h
  split at h
  · exact absurd h (by simp)
  · split at h
    · refine ⟨by omega, by omega, ?_⟩
      cases h
      rfl
    · exact absurd h (by simp)

theorem readAt_ok_length (file : List Nat) (offset : Int) (len : Nat) (bytes : List Nat)
    (h : readAt file offset len = .ok bytes) : bytes.length = len := by
  obtain ⟨h1, h2, h3⟩ := readAt_ok_inv file offset len bytes h
  subst h3
  simp only [List.length_take, List.length_drop]
  omega

theorem readAt_err_cases (file : List Nat) (offset : Int) (len : Nat) (e : HashError)
    (h : readAt file offset len = .err e) : e = .negOffsetError ∨ e = .eofError := by
  simp only [readAt] at h
  split at h
  · cases h; exact Or.inl rfl
  · split at h
    · exact absurd h (by simp)
    · cases h; exact Or.inr rfl

theorem readAt_ne_crash (file : List Nat) (offset : Int) (len : Nat) (m : String) :
    readAt file offset len ≠ .crash m := by
  simp only [readAt]
  split
  · simp
  · split <;> simp

theorem readChunk_ok_inv (file : List Nat) (offset : Int) (bufLen : Nat) (bytes : List Nat)
    (h : readChunk file offset bufLen = .ok bytes) :
    readAt file offset bufLen = .ok bytes ∧ bufLen = OSDBChunkSize := by
  rcases Decidable.em (bufLen = OSDBChunkSize) with hb | hb
  · cases hR : readAt file offset bufLen with
    | ok b =>
      simp only [readChunk, hR] at h
      rw [if_neg (by omega)] at h
      injection h with h
      subst h
      exact ⟨rfl, hb⟩
    | err e => simp [readChunk, hR] at h
    | crash m => simp [readChunk, hR] at h
  · cases hR : readAt file offset bufLen with
    | ok b =>
      simp only [readChunk, hR] at h
      rw [if_pos hb] at h
      exact absurd h (by simp)
    | err e => simp [readChunk, hR] at h
    | crash m => simp [readChunk, hR] at h

theorem readChunk_err_cases (file : List Nat) (offset : Int) (bufLen : Nat) (e : HashError)
    (h : readChunk file offset bufLen = .err e) :
    e = .negOffsetError ∨ e = .eofError ∨ e = .invalidRead bufLen := by
  cases hR : readAt file offset bufLen with
  | ok b =>
    simp only [readChunk, hR] at h
    split at h
    · injection h with h
      subst h
      exact Or.inr (Or.inr rfl)
    · exact absurd h (by simp)
  | err e0 =>
    simp only [readChunk, hR] at h
    injection h with h
    subst h
    rcases readAt_err_cases file offset bufLen e0 hR with h | h
    · exact Or.inl h
    · exact Or.inr (Or.inl h)
  | crash m => exact absurd hR (readAt_ne_crash file offset bufLen m)

theorem readChunk_ne_crash (file : List Nat) (offset : Int) (bufLen : Nat) (m : String) :
    readChunk file offset bufLen ≠ .crash m := by
  cases hR : readAt file offset bufLen with
  | ok b =>
    simp only [readChunk, hR]
    split <;> simp
  | err e => simp [readChunk, hR]
  | crash m0 => exact absurd hR (readAt_ne_crash file offset bufLen m0)

theorem readChunk_full (file : List Nat) (offset : Int)
    (h1 : 0 ≤ offset) (h2 : offset.toNat + OSDBChunkSize ≤ file.length) :
    readChunk file offset OSDBChunkSize =
      .ok ((file.drop offset.toNat).take OSDBChunkSize) := by
  simp [readChunk, readAt_ok file offset OSDBChunkSize h1 h2]

theorem fetchSpansLocal_ne_crash (file : List Nat) (fileSize : Int)
    (chunks : List chunkInfo) (m : String) :
    fetchSpansLocal file fileSize chunks ≠ .crash m := by
  induction chunks generalizing m with
  | nil => simp [fetchSpansLocal]
  | cons span rest ih =>
    cases hC : readChunk file (resolveStart span.offset fileSize) span.size.toNat with
    | ok bytes =>
      cases hRest : fetchSpansLocal file fileSize rest with
      | ok tail => simp [fetchSpansLocal, hC, hRest]
      | err e => simp [fetchSpansLocal, hC, hRest]
      | crash m0 => exact absurd hRest (ih m0)
    | err e => simp [fetchSpansLocal, hC]
    | crash m0 =>
      exact absurd hC (readChunk_ne_crash file (resolveStart span.offset fileSize)
        span.size.toNat m0)

theorem fetchSpansLocal_err_cases (file : List Nat) (fileSize : Int)
    (chunks : List chunkInfo) (e : HashError)
    (h : fetchSpansLocal file fileSize chunks = .err e) :
    e = .negOffsetError ∨ e = .eofError ∨ ∃ n, e = .invalidRead n := by
  induction chunks generalizing e with
  | nil => simp [fetchSpansLocal] at h
  | cons span rest ih =>
    cases hC : readChunk file (resolveStart span.offset fileSize) span.size.toNat with
    | ok bytes =>
      cases hRest : fetchSpansLocal file fileSize rest with
      | ok tail => simp [fetchSpansLocal, hC, hRest] at h
      | err e0 =>
        simp only [fetchSpansLocal, hC, hRest] at h
        injection h with h
        subst h
        exact ih e0 hRest
      | crash m0 => exact absurd hRest (fetchSpansLocal_ne_crash file fileSize rest m0)
    | err e0 =>
      simp only [fetchSpansLocal, hC] at h
      injection h with h
      subst h
      rcases readChunk_err_cases _ _ _ _ hC with h | h | h
      · exact Or.inl h
      · exact Or.inr (Or.inl h)
      · exact Or.inr (Or.inr ⟨_, h⟩)
    | crash m0 =>
      exact absurd hC (readChunk_ne_crash file (resolveStart span.offset fileSize)
        span.size.toNat m0)

theorem fetchSpansLocal_ok_length (file : List Nat) (fileSize : Int)
    (chunks : List chunkInfo) (buf : List Nat)
    (h : fetchSpansLocal file fileSize chunks = .ok buf) :
    buf.length = (chunks.map (fun c => c.size.toNat)).sum := by
  induction chunks generalizing buf with
  | nil =>
    simp only [fetchSpansLocal] at h
    injection h with h
    subst h
    simp
  | cons span rest ih =>
    cases hC : readChunk file (resolveStart span.offset fileSize) span.size.toNat with
    | ok bytes =>
      cases hRest : fetchSpansLocal file fileSize rest with
      | ok tail =>
        simp only [fetchSpansLocal, hC, hRest] at h
        injection h with h
        subst h
        have hb := readChunk_ok_inv _ _ _ _ hC
        have hlen := readAt_ok_length _ _ _ _ hb.1
        simp [hlen, ih _ hRest]
      | err e => simp [fetchSpansLocal, hC, hRest] at h
      | crash m0 => exact absurd hRest (fetchSpansLocal_ne_crash file fileSize rest m0)
    | err e => simp [fetchSpansLocal, hC] at h
    | crash m0 =>
      exact absurd hC (readChunk_ne_crash file (resolveStart span.offset fileSize)
        span.size.toNat m0)

theorem readRemoteChunk_ne_crash (src : RemoteSource) (offset : Int) (bufLen : Nat)
    (m : String) : (readRemoteChunk src offset bufLen).1 ≠ .crash m := by
  simp only [readRemoteChunk]
  split
  · split <;> simp
  · split <;> simp

theorem readRemoteChunk_ok_length (src : RemoteSource) (offset : Int) (bufLen : Nat)
    (bytes : List Nat) (h : (readRemoteChunk src offset bufLen).1 = .ok bytes) :
    bytes.length = bufLen := by
  rcases Decidable.em (offset < 0) with ho | ho
  · simp only [readRemoteChunk, if_pos ho] at h
    split at h
    · exact absurd h (by simp)
    case isFalse hlen =>
      injection h with h
      subst h
      simp only [List.length_nil] at hlen ⊢
      omega
  · simp only [readRemoteChunk, if_neg ho] at h
    split at h
    · exact absurd h (by simp)
    case isFalse hlen =>
      injection h with h
      subst h
      simp only [List.length_take, List.length_drop] at hlen ⊢
      omega

theorem fetchSpansRemote_ne_crash (src : RemoteSource) (fileSize : Int)
    (chunks : List chunkInfo) (m : String) :
    (fetchSpansRemote src fileSize chunks).1 ≠ .crash m := by
  induction chunks generalizing m with
  | nil => simp [fetchSpansRemote]
  | cons span rest ih =>
    cases hC : (readRemoteChunk src (resolveStart span.offset fileSize) span.size.toNat).1 with
    | ok bytes =>
      cases hRest : (fetchSpansRemote src fileSize rest).1 with
      | ok tail => simp [fetchSpansRemote, hC, hRest]
      | err e => simp [fetchSpansRemote, hC, hRest]
      | crash m0 => exact absurd hRest (ih m0)
    | err e => simp [fetchSpansRemote, hC]
    | crash m0 =>
      exact absurd hC (readRemoteChunk_ne_crash src (resolveStart span.offset fileSize)
        span.size.toNat m0)

theorem fetchSpansRemote_ok_length (src : RemoteSource) (fileSize : Int)
    (chunks : List chunkInfo) (buf : List Nat)
    (h : (fetchSpansRemote src fileSize chunks).1 = .ok buf) :
    buf.length = (chunks.map (fun c => c.size.toNat)).sum := by
  induction chunks generalizing buf with
  | nil =>
    simp only [fetchSpansRemote] at h
    injection h with h
    subst h
    simp
  | cons span rest ih =>
    cases hC : (readRemoteChunk src (resolveStart span.offset fileSize) span.size.toNat).1 with
    | ok bytes =>
      cases hRest : (fetchSpansRemote src fileSize rest).1 with
      | ok tail =>
        simp only [fetchSpansRemote, hC, hRest] at h
        injection h with h
        subst h
        have hlen := readRemoteChunk_ok_length _ _ _ _ hC
        simp [hlen, ih _ hRest]
      | err e => simp [fetchSpansRemote, hC, hRest] at h
      | crash m0 => exact absurd hRest (fetchSpansRemote_ne_crash src fileSize rest m0)
    | err e => simp [fetchSpansRemote, hC] at h
    | crash m0 =>
      exact absurd hC (readRemoteChunk_ne_crash src (resolveStart span.offset fileSize)
        span.size.toNat m0)

theorem readRemoteChunks_ok_inv (src : RemoteSource) (minimumRequiredSize : Int)
    (chunks : List chunkInfo) (fileSize : Int) (buf : List Nat)
    (h : (readRemoteChunks src minimumRequiredSize chunks).1 = .ok (fileSize, buf)) :
    remoteMeta src = .ok fileSize ∧ ¬(fileSize < minimumRequiredSize) ∧
      (fetchSpansRemote src fileSize chunks).1 = .ok buf := by
  cases hM : remoteMeta src with
  | ok n =>
    simp only [readRemoteChunks, hM] at h
    split at h
    · exact absurd h (by simp)
    case isFalse hmin =>
      cases hF : (fetchSpansRemote src n chunks).1 with
      | ok b =>
        simp only [hF] at h
        injection h with h
        injection h with h1 h2
        subst h1
        subst h2
        exact ⟨rfl, hmin, hF⟩
      | err e => simp [hF] at h
      | crash m => simp [hF] at h
  | err e => simp [readRemoteChunks, hM] at h
  | crash m => simp [readRemoteChunks, hM] at h

theorem foldl_wrap (l : List Nat) : ∀ a : Nat,
    l.foldl (fun acc w => (acc + w) % 2 ^ 64) (a % 2 ^ 64) = (a + l.sum) % 2 ^ 64 := by
  induction l with
  | nil => intro a; simp
  | cons w rest ih =>
    intro a
    simp only [List.foldl_cons, List.sum_cons]
    have : (a % 2 ^ 64 + w) % 2 ^ 64 = (a + w) % 2 ^ 64 := by omega
    rw [this, ih (a + w)]
    congr 1
    omega

theorem hashFold_eq (words : List Nat) (sizeWord : Nat) :
    hashFold words sizeWord = (words.sum + sizeWord) % 2 ^ 64 := by
  simp only [hashFold]
  have h0 : (0 : Nat) % 2 ^ 64 = 0 := by norm_num
  rw [← h0, foldl_wrap words 0]
  omega

theorem intToUInt64_natCast (n : Nat) : intToUInt64 (n : Int) = n % 2 ^ 64 := by
  simp only [intToUInt64]
  omega

theorem hexDigit_mem (m : Nat) (h : m < 16) : isLowerHexChar (hexDigit m) = true := by
  interval_cases m <;> decide

theorem toHexRevAux_mem : ∀ (fuel n : Nat), ∀ c ∈ toHexRevAux fuel n,
    isLowerHexChar c = true := by
  intro fuel
  induction fuel with
  | zero => intro n c hc; simp [toHexRevAux] at hc
  | succ fuel ih =>
    intro n c hc
    simp only [toHexRevAux] at hc
    split at hc
    · simp at hc
    · rcases List.mem_cons.mp hc with hh | hh
      · subst hh
        exact hexDigit_mem _ (Nat.mod_lt _ (by omega))
      · exact ih _ c hh

theorem toHexRev_mem (n : Nat) : ∀ c ∈ toHexRev n, isLowerHexChar c = true :=
  toHexRevAux_mem 16 n

theorem toHexRevAux_length : ∀ (fuel n : Nat), (toHexRevAux fuel n).length ≤ fuel := by
  intro fuel
  induction fuel with
  | zero => intro n; simp [toHexRevAux]
  | succ fuel ih =>
    intro n
    simp only [toHexRevAux]
    split
    · simp
    · simp only [List.length_cons]
      have := ih (n / 16)
      omega

theorem format016x_length (n : Nat) : (format016x n).length = 16 := by
  simp only [format016x]
  have hd : (if n = 0 then ['0'] else (toHexRev n).reverse).length ≤ 16 := by
    split
    · simp
    · simp only [List.length_reverse]
      exact toHexRevAux_length 16 n
  show (List.replicate _ '0' ++ _).length = 16
  simp only [List.length_append, List.length_replicate]
  omega

theorem format016x_chars (n : Nat) :
    ∀ c ∈ (format016x n).toList, isLowerHexChar c = true := by
  intro c hc
  simp only [format016x] at hc
  have hc2 : c ∈ List.replicate (16 - (if n = 0 then ['0'] else (toHexRev n).reverse).length) '0' ++
      (if n = 0 then ['0'] else (toHexRev n).reverse) := hc
  rcases List.mem_append.mp hc2 with h | h
  · rw [List.eq_of_mem_replicate h]
    decide
  · split at h
    · simp only [List.mem_singleton] at h
      subst h
      decide
    · exact toHexRev_mem n c (List.mem_reverse.mp h)

theorem fetchSpansLocal_osdb (file : List Nat) (h : OSDBChunkSize ≤ file.length) :
    fetchSpansLocal file (file.length : Int) osdbSpans =
      .ok (file.take OSDBChunkSize ++
        (file.drop (file.length - OSDBChunkSize)).take OSDBChunkSize) := by
  have hpos : 0 < OSDBChunkSize := by norm_num [OSDBChunkSize]
  have e1 : readChunk file (resolveStart 0 (file.length : Int))
      ((OSDBChunkSize : Int)).toNat = .ok (file.take OSDBChunkSize) := by
    have hr : resolveStart 0 (file.length : Int) = 0 := by
      simp [resolveStart]
    have ht : ((OSDBChunkSize : Int)).toNat = OSDBChunkSize := by omega
    rw [hr, ht, readChunk_full file 0 (by omega) (by simp; omega)]
    simp
  have e2 : readChunk file (resolveStart (-(OSDBChunkSize : Int)) (file.length : Int))
      ((OSDBChunkSize : Int)).toNat =
      .ok ((file.drop (file.length - OSDBChunkSize)).take OSDBChunkSize) := by
    have hr : resolveStart (-(OSDBChunkSize : Int)) (file.length : Int) =
        -(OSDBChunkSize : Int) + (file.length : Int) := by
      simp only [resolveStart]
      rw [if_pos (by omega)]
    have ht : ((OSDBChunkSize : Int)).toNat = OSDBChunkSize := by omega
    have h0 : (0 : Int) ≤ -(OSDBChunkSize : Int) + (file.length : Int) := by omega
    have h2 : (-(OSDBChunkSize : Int) + (file.length : Int)).toNat + OSDBChunkSize ≤
        file.length := by omega
    rw [hr, ht, readChunk_full file _ h0 h2]
    have h3 : (-(OSDBChunkSize : Int) + (file.length : Int)).toNat =
        file.length - OSDBChunkSize := by omega
    rw [h3]
  simp only [osdbSpans, fetchSpansLocal, e1, e2, List.append_nil]

theorem readChunks_local_osdb (file : List Nat) (h : OSDBChunkSize ≤ file.length) :
    readChunks (.localFile file) (OSDBChunkSize : Int) osdbSpans =
      (.ok ((file.length : Int),
        file.take OSDBChunkSize ++
          (file.drop (file.length - OSDBChunkSize)).take OSDBChunkSize),
       [Event.openFile]) := by
  simp only [readChunks, readChunksLocal]
  rw [if_neg (by omega), fetchSpansLocal_osdb file h]

theorem OSDBHashFile_local_ok (file : List Nat) (h : OSDBChunkSize ≤ file.length) :
    OSDBHashFile (.localFile file) =
      (.ok (format016x
        (((decodeWordsLE (file.take OSDBChunkSize ++
            (file.drop (file.length - OSDBChunkSize)).take OSDBChunkSize)
            OSDBWordCount).sum + file.length) % 2 ^ 64)),
       [Event.openFile]) := by
  have hw : OSDBWordCount = 16384 := rfl
  have hc : OSDBChunkSize = 65536 := rfl
  simp only [OSDBHashFile, readChunks_local_osdb file h]
  simp only [hashFolder]
  rw [if_neg ?hlen]
  case hlen =>
    simp only [List.length_append, List.length_take, List.length_drop]
    omega
  rw [hashFold_eq, intToUInt64_natCast]
  have harg : ∀ a b : Nat, (a + b % 2 ^ 64) % 2 ^ 64 = (a + b) % 2 ^ 64 := by
    intro a b
    omega
  rw [harg]

theorem wordLE_replicate_zero : ∀ k, wordLE (List.replicate k 0) = 0 := by
  intro k
  induction k with
  | zero => rfl
  | succ k ih =>
    rw [List.replicate_succ]
    simp only [wordLE, List.foldr_cons] at ih ⊢
    omega

theorem decodeWordsLE_zero_sum (N n : Nat) :
    (decodeWordsLE (List.replicate N 0) n).sum = 0 := by
  apply List.sum_eq_zero
  intro x hx
  simp only [decodeWordsLE, List.mem_map] at hx
  obtain ⟨i, _, hxe⟩ := hx
  rw [List.drop_replicate, List.take_replicate] at hxe
  rw [← hxe]
  exact wordLE_replicate_zero _

theorem buf_zero (S : Nat) (h : OSDBChunkSize ≤ S) :
    (List.replicate S (0 : Nat)).take OSDBChunkSize ++
      ((List.replicate S (0 : Nat)).drop (S - OSDBChunkSize)).take OSDBChunkSize =
      List.replicate (2 * OSDBChunkSize) 0 := by
  rw [List.take_replicate, List.drop_replicate, List.take_replicate]
  have h1 : min OSDBChunkSize S = OSDBChunkSize := by omega
  have h2 : min OSDBChunkSize (S - (S - OSDBChunkSize)) = OSDBChunkSize := by omega
  rw [h1, h2, ← List.replicate_add]
  congr 1

theorem OSDBHashFile_zero (S : Nat) (h : OSDBChunkSize ≤ S) :
    (OSDBHashFile (.localFile (List.replicate S 0))).1 =
      .ok (format016x (S % 2 ^ 64)) := by
  have hlen : (List.replicate S (0 : Nat)).length = S := List.length_replicate ..
  have hmain := OSDBHashFile_local_ok (List.replicate S 0) (by rw [hlen]; exact h)
  rw [hmain]
  show Result.ok _ = _
  rw [hlen, buf_zero S h, decodeWordsLE_zero_sum, Nat.zero_add]

theorem readChunk_tail (file : List Nat) (h : OSDBChunkSize ≤ file.length) :
    readChunk file (resolveStart (-(OSDBChunkSize : Int)) (file.length : Int))
      ((OSDBChunkSize : Int)).toNat =
      .ok ((file.drop (file.length - OSDBChunkSize)).take OSDBChunkSize) := by
  have hpos : 0 < OSDBChunkSize := by norm_num [OSDBChunkSize]
  have hr : resolveStart (-(OSDBChunkSize : Int)) (file.length : Int) =
      -(OSDBChunkSize : Int) + (file.length : Int) := by
    simp only [resolveStart]
    rw [if_pos (by omega)]
  have ht : ((OSDBChunkSize : Int)).toNat = OSDBChunkSize := by omega
  have h0 : (0 : Int) ≤ -(OSDBChunkSize : Int) + (file.length : Int) := by omega
  have h2 : (-(OSDBChunkSize : Int) + (file.length : Int)).toNat + OSDBChunkSize ≤
      file.length := by omega
  rw [hr, ht, readChunk_full file _ h0 h2]
  have h3 : (-(OSDBChunkSize : Int) + (file.length : Int)).toNat =
      file.length - OSDBChunkSize := by omega
  rw [h3]

theorem readRemoteChunk_tail (hs : List (String × List String)) (file : List Nat)
    (h : OSDBChunkSize ≤ file.length) :
    (readRemoteChunk ⟨hs, file⟩ (resolveStart (-(OSDBChunkSize : Int)) (file.length : Int))
      ((OSDBChunkSize : Int)).toNat).1 =
      .ok ((file.drop (file.length - OSDBChunkSize)).take OSDBChunkSize) := by
  have hpos : 0 < OSDBChunkSize := by norm_num [OSDBChunkSize]
  have hr : resolveStart (-(OSDBChunkSize : Int)) (file.length : Int) =
      -(OSDBChunkSize : Int) + (file.length : Int) := by
    simp only [resolveStart]
    rw [if_pos (by omega)]
  have ht : ((OSDBChunkSize : Int)).toNat = OSDBChunkSize := by omega
  have h3 : (-(OSDBChunkSize : Int) + (file.length : Int)).toNat =
      file.length - OSDBChunkSize := by omega
  rw [hr, ht]
  simp only [readRemoteChunk]
  rw [if_neg (show ¬(-(OSDBChunkSize : Int) + (file.length : Int) < 0) by omega), h3,
    if_neg ?hl]
  case hl =>
    simp only [List.length_take, List.length_drop]
    omega

theorem readChunks_ok_buflen (source : Source) (fileSize : Int) (buf : List Nat)
    (h : (readChunks source (OSDBChunkSize : Int) osdbSpans).1 = .ok (fileSize, buf)) :
    buf.length = 2 * OSDBChunkSize := by
  have hsum : (osdbSpans.map (fun c => c.size.toNat)).sum = 2 * OSDBChunkSize := by
    simp only [osdbSpans, List.map_cons, List.map_nil, List.sum_cons, List.sum_nil]
    omega
  cases source with
  | localFile file =>
    simp only [readChunks, readChunksLocal] at h
    split at h
    · exact absurd h (by simp)
    · cases hF : fetchSpansLocal file (file.length : Int) osdbSpans with
      | ok b =>
        simp only [hF] at h
        injection h with h
        injection h with h1 h2
        subst h2
        rw [fetchSpansLocal_ok_length _ _ _ _ hF, hsum]
      | err e => simp [hF] at h
      | crash m => simp [hF] at h
  | remote src =>
    simp only [readChunks] at h
    obtain ⟨-, -, hF⟩ := readRemoteChunks_ok_inv src _ osdbSpans fileSize buf h
    rw [fetchSpansRemote_ok_length _ _ _ _ hF, hsum]

theorem OSDBHashFile_ok_of_read (source : Source) (fileSize : Int) (buf : List Nat)
    (h : (readChunks source (OSDBChunkSize : Int) osdbSpans).1 = .ok (fileSize, buf)) :
    (OSDBHashFile source).1 =
      .ok (format016x (hashFold (decodeWordsLE buf OSDBWordCount) (intToUInt64 fileSize))) := by
  have hlen := readChunks_ok_buflen source fileSize buf h
  have hw : OSDBWordCount = 16384 := rfl
  have hc : OSDBChunkSize = 65536 := rfl
  simp only [OSDBHashFile, h, hashFolder]
  rw [if_neg (by omega)]

theorem fetchSpansRemote_events (src : RemoteSource) (fileSize : Int)
    (chunks : List chunkInfo) :
    ∀ e ∈ (fetchSpansRemote src fileSize chunks).2,
      e = .getRequest ∨ e = .closeGetBody := by
  induction chunks with
  | nil => simp [fetchSpansRemote]
  | cons span rest ih =>
    have hev : (readRemoteChunk src (resolveStart span.offset fileSize)
        span.size.toNat).2 = [.getRequest, .closeGetBody] := rfl
    intro e he
    cases hC : (readRemoteChunk src (resolveStart span.offset fileSize) span.size.toNat).1 with
    | ok bytes =>
      cases hRest : (fetchSpansRemote src fileSize rest).1 with
      | ok tail =>
        simp only [fetchSpansRemote, hC, hRest, hev] at he
        rcases List.mem_append.mp he with hm | hm
        · rcases List.mem_cons.mp hm with hm | hm
          · exact Or.inl hm
          · simp only [List.mem_singleton] at hm
            exact Or.inr hm
        · exact ih e hm
      | err e0 =>
        simp only [fetchSpansRemote, hC, hRest, hev] at he
        rcases List.mem_append.mp he with hm | hm
        · rcases List.mem_cons.mp hm with hm | hm
          · exact Or.inl hm
          · simp only [List.mem_singleton] at hm
            exact Or.inr hm
        · exact ih e hm
      | crash m0 => exact absurd hRest (fetchSpansRemote_ne_crash src fileSize rest m0)
    | err e0 =>
      simp only [fetchSpansRemote, hC, hev] at he
      rcases List.mem_cons.mp he with hm | hm
      · exact Or.inl hm
      · simp only [List.mem_singleton] at hm
        exact Or.inr hm
    | crash m0 =>
      exact absurd hC (readRemoteChunk_ne_crash src (resolveStart span.offset fileSize)
        span.size.toNat m0)

theorem readRemoteChunks_no_head_close (src : RemoteSource) (minimumRequiredSize : Int)
    (chunks : List chunkInfo) :
    Event.closeHeadBody ∉ (readRemoteChunks src minimumRequiredSize chunks).2 := by
  cases hM : remoteMeta src with
  | ok n =>
    simp only [readRemoteChunks, hM]
    split
    · simp
    · intro hmem
      rcases List.mem_cons.mp hmem with hm | hm
      · exact absurd hm (by simp)
      · rcases fetchSpansRemote_events src n chunks _ hm with hm2 | hm2 <;> simp at hm2
  | err e => simp [readRemoteChunks, hM]
  | crash m => simp [readRemoteChunks, hM]

/-! Claim theorems. -/

/-- Claim C1, counterexample: a local file of exactly 131071 bytes does
not fail with the too-small error; `OSDBHashFile` succeeds on it and
returns the hash of its content plus size (131071 = 0x1ffff), because
the minimum size passed at line 156 is `OSDBChunkSize` (65536), not
131072. -/
theorem C1_counterexample :
    (OSDBHashFile (.localFile (List.replicate 131071 0))).1 = .ok "000000000001ffff" ∧
    (OSDBHashFile (.localFile (List.replicate 131071 0))).1 ≠
      .err .sourceTooSmall := by
  have h := OSDBHashFile_zero 131071 (by norm_num [OSDBChunkSize])
  have h2 : format016x (131071 % 2 ^ 64) = "000000000001ffff" := by decide
  rw [h2] at h
  exact ⟨h, by rw [h]; simp⟩

/-- Claim C1, amended: `OSDBHashFile` fails with the too-small error
exactly for local files below 65536 bytes (`OSDBChunkSize`), and no
buffer is hashed in that case; every local file of at least 65536 bytes
(131071 bytes included) hashes successfully. -/
theorem C1_thm :
    (∀ file : List Nat, file.length < OSDBChunkSize →
      (OSDBHashFile (.localFile file)).1 = .err .sourceTooSmall) ∧
    (∀ file : List Nat, OSDBChunkSize ≤ file.length →
      ∃ s, (OSDBHashFile (.localFile file)).1 = .ok s) := by
  constructor
  · intro file h
    have hread : readChunks (.localFile file) (OSDBChunkSize : Int) osdbSpans =
        (.err .sourceTooSmall, [.openFile]) := by
      simp only [readChunks, readChunksLocal]
      rw [if_pos (by omega)]
    simp [OSDBHashFile, hread]
  · intro file h
    exact ⟨_, by rw [OSDBHashFile_local_ok file h]⟩

/-- Claim C1, witness: a 100-byte file is rejected as too small, and a
131072-byte file hashes successfully. -/
theorem C1_witness :
    (OSDBHashFile (.localFile (List.replicate 100 0))).1 = .err .sourceTooSmall ∧
    ∃ s, (OSDBHashFile (.localFile (List.replicate 131072 0))).1 = .ok s :=
  ⟨C1_thm.1 (List.replicate 100 0) (by norm_num [OSDBChunkSize]),
   C1_thm.2 (List.replicate 131072 0) (by norm_num [OSDBChunkSize])⟩

/-- Claim C2: whenever the chunk read of `OSDBHashFile` succeeds (any
backend), the returned hash is a string of exactly 16 lowercase
hexadecimal characters and no error; and the chunk read does succeed on
every local file of at least 131072 bytes. -/
theorem C2_thm :
    (∀ (source : Source) (fileSize : Int) (buf : List Nat),
      (readChunks source (OSDBChunkSize : Int) osdbSpans).1 = .ok (fileSize, buf) →
      ∃ s, (OSDBHashFile source).1 = .ok s ∧ s.length = 16 ∧
        ∀ c ∈ s.toList, isLowerHexChar c = true) ∧
    (∀ file : List Nat, 131072 ≤ file.length →
      ∃ (fileSize : Int) (buf : List Nat),
        (readChunks (.localFile file) (OSDBChunkSize : Int) osdbSpans).1 =
          .ok (fileSize, buf)) := by
  constructor
  · intro source fileSize buf h
    exact ⟨_, OSDBHashFile_ok_of_read source fileSize buf h,
      format016x_length _, format016x_chars _⟩
  · intro file h
    have hc : OSDBChunkSize ≤ file.length := by
      have : OSDBChunkSize = 65536 := rfl
      omega
    exact ⟨_, _, by rw [readChunks_local_osdb file hc]⟩

/-- Claim C2, witness: the all-zero 131072-byte local file. -/
theorem C2_witness :
    ∃ s, (OSDBHashFile (.localFile (List.replicate 131072 0))).1 = .ok s ∧
      s.length = 16 ∧ ∀ c ∈ s.toList, isLowerHexChar c = true := by
  apply C2_thm.1 (.localFile (List.replicate 131072 0)) 131072
    (List.replicate (2 * OSDBChunkSize) 0)
  have hc : OSDBChunkSize ≤ (List.replicate 131072 (0 : Nat)).length := by
    norm_num [OSDBChunkSize]
  rw [readChunks_local_osdb (List.replicate 131072 0) hc]
  show Result.ok _ = _
  rw [List.length_replicate, buf_zero 131072 (by norm_num [OSDBChunkSize])]
  norm_num

/-- Claim C3: with a word-aligned buffer of the size the folder decodes
(16384 words), the hash folder returns the 16-digit hexadecimal
rendering of the wraparound word sum plus the total size, modulo
`2 ^ 64`; in particular the all-zero 131072-byte local file hashes to
the rendering of 0x20000. -/
theorem C3_thm :
    (∀ (buf : List Nat) (T : Int), buf.length = 8 * OSDBWordCount →
      hashFolder buf T =
        .ok (format016x (((decodeWordsLE buf OSDBWordCount).sum + intToUInt64 T) %
          2 ^ 64))) ∧
    (OSDBHashFile (.localFile (List.replicate 131072 0))).1 =
      .ok "0000000000020000" := by
  constructor
  · intro buf T h
    simp only [hashFolder]
    rw [if_neg (by omega), hashFold_eq]
  · have h := OSDBHashFile_zero 131072 (by norm_num [OSDBChunkSize])
    have h2 : format016x (131072 % 2 ^ 64) = "0000000000020000" := by decide
    rw [h2] at h
    exact h

/-- Claim C3, witness: a concrete word-aligned buffer and size. -/
theorem C3_witness :
    hashFolder (List.replicate 131072 0) 131072 =
      .ok (format016x (((decodeWordsLE (List.replicate 131072 0) OSDBWordCount).sum +
        intToUInt64 131072) % 2 ^ 64)) :=
  C3_thm.1 (List.replicate 131072 0) 131072
    (by norm_num [OSDBWordCount, OSDBChunkSize])

/-- Claim C4, counterexample: a remote source of size 70000 read with
`minimumRequiredSize = 100000` is not rejected as too small — the
remote dispatch at line 102 discards the argument and uses the constant
65536 instead, so the call succeeds. -/
theorem C4_counterexample :
    readChunks
        (.remote ⟨[("Accept-Ranges", ["bytes"]), ("Content-Length", ["70000"])], []⟩)
        100000 [] = (.ok (70000, []), [.headRequest]) ∧
      (70000 : Int) < 100000 := by
  constructor
  · decide
  · decide

/-- Claim C4, amended: for local sources `readChunks` fails with the
too-small error exactly when the file size is below the given
`minimumRequiredSize`; for remote sources the argument is ignored and
the constant `OSDBChunkSize` (65536) is used in its place. -/
theorem C4_thm :
    (∀ (file : List Nat) (minimumRequiredSize : Int) (chunks : List chunkInfo),
      ((readChunks (.localFile file) minimumRequiredSize chunks).1 =
          .err .sourceTooSmall ↔
        (file.length : Int) < minimumRequiredSize)) ∧
    (∀ (src : RemoteSource) (minimumRequiredSize : Int) (chunks : List chunkInfo),
      readChunks (.remote src) minimumRequiredSize chunks =
        readRemoteChunks src (OSDBChunkSize : Int) chunks) := by
  constructor
  · intro file minSize chunks
    constructor
    · intro h
      by_contra hlt
      simp only [readChunks, readChunksLocal] at h
      rw [if_neg hlt] at h
      cases hF : fetchSpansLocal file (file.length : Int) chunks with
      | ok b => simp [hF] at h
      | err e =>
        simp only [hF] at h
        injection h with h
        subst h
        rcases fetchSpansLocal_err_cases _ _ _ _ hF with h1 | h1 | ⟨n, h1⟩ <;> simp at h1
      | crash m => exact absurd hF (fetchSpansLocal_ne_crash file (file.length : Int) chunks m)
    · intro h
      simp only [readChunks, readChunksLocal]
      rw [if_pos h]
  · intro src minSize chunks
    rfl

/-- Claim C4, witness: an empty local file read with minimum size 5 is
rejected as too small. -/
theorem C4_witness :
    (readChunks (.localFile []) 5 []).1 = .err .sourceTooSmall :=
  (C4_thm.1 [] 5 []).mpr (by norm_num)

/-- Claim C5: a negative span offset resolves to `offset + fileSize`
(lines 87 to 90 and 132 to 135), and the tail span of the OSDB hash,
offset `-65536` and size 65536, fetches exactly the final 65536 bytes
of the source, on the local backend and on the remote backend alike. -/
theorem C5_thm (file : List Nat) (hs : List (String × List String))
    (offset fileSize : Int) (h : OSDBChunkSize ≤ file.length) (ho : offset < 0) :
    resolveStart offset fileSize = offset + fileSize ∧
    fetchSpansLocal file (file.length : Int)
        [⟨-(OSDBChunkSize : Int), (OSDBChunkSize : Int)⟩] =
      .ok ((file.drop (file.length - OSDBChunkSize)).take OSDBChunkSize) ∧
    (fetchSpansRemote ⟨hs, file⟩ (file.length : Int)
        [⟨-(OSDBChunkSize : Int), (OSDBChunkSize : Int)⟩]).1 =
      .ok ((file.drop (file.length - OSDBChunkSize)).take OSDBChunkSize) := by
  refine ⟨?_, ?_, ?_⟩
  · simp only [resolveStart]
    rw [if_pos ho]
  · simp only [fetchSpansLocal, readChunk_tail file h]
    simp [fetchSpansLocal]
  · simp only [fetchSpansRemote, readRemoteChunk_tail hs file h]
    simp [fetchSpansRemote]

/-- Claim C5, witness: a 65536-byte file; the tail span returns the
whole content. -/
theorem C5_witness :
    resolveStart (-3) 99 = -3 + 99 ∧
    fetchSpansLocal (List.replicate 65536 0) ((List.replicate 65536 (0 : Nat)).length : Int)
        [⟨-(OSDBChunkSize : Int), (OSDBChunkSize : Int)⟩] =
      .ok (((List.replicate 65536 (0 : Nat)).drop
        ((List.replicate 65536 (0 : Nat)).length - OSDBChunkSize)).take OSDBChunkSize) ∧
    (fetchSpansRemote ⟨[], List.replicate 65536 0⟩
        ((List.replicate 65536 (0 : Nat)).length : Int)
        [⟨-(OSDBChunkSize : Int), (OSDBChunkSize : Int)⟩]).1 =
      .ok (((List.replicate 65536 (0 : Nat)).drop
        ((List.replicate 65536 (0 : Nat)).length - OSDBChunkSize)).take OSDBChunkSize) :=
  C5_thm (List.replicate 65536 0) [] (-3) 99 (by norm_num [OSDBChunkSize]) (by norm_num)

/-- Claim C6: on a HEAD response that advertises byte ranges but lacks a
Content-Length header, `readRemoteChunks` panics with an index out of
range (line 69 indexes a nil slice) instead of returning the
malformed-response error the specification promises; a present but
unparsable Content-Length is returned as an error, as specified. -/
theorem C6_bug :
    readRemoteChunks ⟨[("Accept-Ranges", ["bytes"])], []⟩ (OSDBChunkSize : Int) [] =
      (.crash "index out of range", [.headRequest]) ∧
    readRemoteChunks ⟨[("Accept-Ranges", ["bytes"]), ("Content-Length", ["12abc"])], []⟩
        (OSDBChunkSize : Int) [] = (.err .malformedResponse, [.headRequest]) := by
  constructor
  · decide
  · decide

/-- Claim C7, counterexample: a positioned read of a span of size 8
returns exactly 8 bytes, yet `readChunk` fails, because line 211
compares the byte count against the constant `OSDBChunkSize` instead of
the requested length. -/
theorem C7_counterexample :
    readAt (List.replicate 16 0) 0 8 = .ok (List.replicate 8 0) ∧
    readChunk (List.replicate 16 0) 0 8 = .err (.invalidRead 8) := by
  constructor
  · decide
  · decide

/-- Claim C7, amended: `readChunk` succeeds exactly when the positioned
read succeeds and the requested span size equals 65536
(`OSDBChunkSize`); an exact read of any other size is rejected with the
invalid-read error, and every failure is the positioned-read error or
that invalid-read error. -/
theorem C7_thm (file : List Nat) (offset : Int) (bufLen : Nat) :
    ((∃ bytes, readChunk file offset bufLen = .ok bytes) ↔
      (∃ bytes, readAt file offset bufLen = .ok bytes) ∧ bufLen = OSDBChunkSize) ∧
    (∀ e, readChunk file offset bufLen = .err e →
      e = .negOffsetError ∨ e = .eofError ∨ e = .invalidRead bufLen) := by
  constructor
  · constructor
    · rintro ⟨bytes, hb⟩
      obtain ⟨h1, h2⟩ := readChunk_ok_inv file offset bufLen bytes hb
      exact ⟨⟨bytes, h1⟩, h2⟩
    · rintro ⟨⟨bytes, hb⟩, hl⟩
      refine ⟨bytes, ?_⟩
      simp only [readChunk, hb]
      rw [if_neg (by omega)]
  · intro e he
    exact readChunk_err_cases file offset bufLen e he

/-- Claim C7, witness: the amended characterization at a 65536-byte
file, offset 0 and span size 65536. -/
theorem C7_witness :
    ((∃ bytes, readChunk (List.replicate 65536 0) 0 65536 = .ok bytes) ↔
      (∃ bytes, readAt (List.replicate 65536 0) 0 65536 = .ok bytes) ∧
        65536 = OSDBChunkSize) ∧
    (∀ e, readChunk (List.replicate 65536 0) 0 65536 = .err e →
      e = .negOffsetError ∨ e = .eofError ∨ e = .invalidRead 65536) :=
  C7_thm (List.replicate 65536 0) 0 65536

/-- Claim C8: when the HEAD response has no Accept-Ranges header at all,
`readRemoteChunks` fails with the range-unsupported error and no GET
request is ever issued. -/
theorem C8_thm (src : RemoteSource) (minimumRequiredSize : Int)
    (chunks : List chunkInfo)
    (h : getHeader src.headers "Accept-Ranges" = none) :
    readRemoteChunks src minimumRequiredSize chunks =
      (.err .rangeUnsupported, [.headRequest]) ∧
    Event.getRequest ∉ (readRemoteChunks src minimumRequiredSize chunks).2 := by
  have hm : remoteMeta src = .err .rangeUnsupported := by
    simp only [remoteMeta, h]
  refine ⟨?_, ?_⟩
  · simp only [readRemoteChunks, hm]
  · simp only [readRemoteChunks, hm]
    simp

/-- Claim C8, witness: a remote source with no headers at all. -/
theorem C8_witness :
    readRemoteChunks ⟨[], []⟩ 0 [] = (.err .rangeUnsupported, [.headRequest]) ∧
    Event.getRequest ∉ (readRemoteChunks ⟨[], []⟩ 0 []).2 :=
  C8_thm ⟨[], []⟩ 0 [] (by decide)

/-- Claim C9: on the fully successful hash of a 131072-byte local file,
the only resource event is opening the file — the source contains no
`file.Close()` call, so the handle is never released, on this or any
other path; likewise the body of the remote HEAD response is never
closed on any path.  This contradicts the specified release of every
handle and body on every exit path. -/
theorem C9_bug :
    (OSDBHashFile (.localFile (List.replicate 131072 0))).1 =
      .ok "0000000000020000" ∧
    (OSDBHashFile (.localFile (List.replicate 131072 0))).2 = [Event.openFile] ∧
    (∀ (file : List Nat) (minimumRequiredSize : Int) (chunks : List chunkInfo),
      Event.closeFile ∉ (readChunks (.localFile file) minimumRequiredSize chunks).2) ∧
    (∀ (src : RemoteSource) (minimumRequiredSize : Int) (chunks : List chunkInfo),
      Event.closeHeadBody ∉ (readRemoteChunks src minimumRequiredSize chunks).2) := by
  refine ⟨?_, rfl, ?_, ?_⟩
  · have h := OSDBHashFile_zero 131072 (by norm_num [OSDBChunkSize])
    have h2 : format016x (131072 % 2 ^ 64) = "0000000000020000" := by decide
    rw [h2] at h
    exact h
  · intro file minSize chunks
    show Event.closeFile ∉ [Event.openFile]
    simp
  · intro src minSize chunks
    exact readRemoteChunks_no_head_close src minSize chunks

/-- Claim C10: when the Accept-Ranges header is present and its first
value is anything other than the exact string bytes, `readRemoteChunks`
also fails with the range-unsupported error, before any GET request. -/
theorem C10_thm (src : RemoteSource) (v : String) (vs : List String)
    (minimumRequiredSize : Int) (chunks : List chunkInfo)
    (h : getHeader src.headers "Accept-Ranges" = some (v :: vs))
    (hv : v ≠ "bytes") :
    readRemoteChunks src minimumRequiredSize chunks =
      (.err .rangeUnsupported, [.headRequest]) ∧
    Event.getRequest ∉ (readRemoteChunks src minimumRequiredSize chunks).2 := by
  have hm : remoteMeta src = .err .rangeUnsupported := by
    simp only [remoteMeta, h]
    rw [if_neg hv]
  refine ⟨?_, ?_⟩
  · simp only [readRemoteChunks, hm]
  · simp only [readRemoteChunks, hm]
    simp

/-- Claim C10, witness: a HEAD response declaring Accept-Ranges none. -/
theorem C10_witness :
    readRemoteChunks ⟨[("Accept-Ranges", ["none"])], []⟩ 0 [] =
      (.err .rangeUnsupported, [.headRequest]) ∧
    Event.getRequest ∉ (readRemoteChunks ⟨[("Accept-Ranges", ["none"])], []⟩ 0 []).2 :=
  C10_thm ⟨[("Accept-Ranges", ["none"])], []⟩ "none" [] 0 [] (by decide) (by decide)

end ZiggyLib
